import Mathlib

/-!
Verification development for the WhatsApp transcript analyzer
(`utils.py`: `parse_whatsapp_txt`, `_try_parse_date`, `excerpt`,
`analyze_keywords`, `highlight_lines`).

Text is modelled as `List Char`.  Python's `re` matching for the two
header patterns and for the `strptime` format regexes is embedded by a
small backtracking engine (`matchSeq`): in all the patterns appearing in
the source every quantifier governs a single-character class, so a
repetition node simply chooses how many characters of the maximal
matching run to consume, greedily or lazily, with full backtracking.
The engine is fuelled; the fuel `(items.map reSize).sum + 1` is an exact
bound on the call depth (each call consumes one item, `alt` takes the
larger branch, `cat` unfolds into its parts), so it never runs out.

The fuzzy scorer (`rapidfuzz.fuzz.partial_ratio`) is an external
library, not part of this repository: `analyze_keywords` is therefore
parameterised by the scoring function, which returns `Option ℚ` — `none`
models the scorer raising an exception (the `try/except` in the source).
Similarly `highlight_linesG` is parameterised by an `Option`-returning
substitution to model the per-keyword `try/except`; the concrete
`highlight_lines` instantiates it with the total substitution `subCI`.
-/

/-- Python's `str.isspace`/regex `\s` character set (`re` with `str`
patterns matches Unicode whitespace). -/
def pySpace (c : Char) : Bool :=
  c = ' ' || c = '\t' || c = '\n' || c = '\r' || c = '\x0b' || c = '\x0c' ||
  c = '\x1c' || c = '\x1d' || c = '\x1e' || c = '\x1f' || c = '\x85' || c = '\xa0' ||
  c = ' ' || (' ' ≤ c && c ≤ ' ') || c = ' ' || c = ' ' ||
  c = ' ' || c = ' ' || c = '　'

/-- Python `str.strip()`. -/
def pstrip (s : List Char) : List Char :=
  ((s.dropWhile pySpace).reverse.dropWhile pySpace).reverse

/-- Python `str.rstrip("\n")` (used on each raw line in the parser). -/
def rstripNl (s : List Char) : List Char :=
  (s.reverse.dropWhile (· == '\n')).reverse

/-- Python `str.lower()` (per-character lowering). -/
def lowerL (s : List Char) : List Char := s.map Char.toLower

/-- Python `str.find(needle)`: index of the first occurrence of `needle`
in `hay`, or `none` when there is no occurrence.  The empty needle is
found at index 0 in every string, as in Python. -/
def findSub (hay needle : List Char) : Option Nat :=
  if needle.isPrefixOf hay then some 0
  else
    match hay with
    | [] => none
    | _ :: t => (findSub t needle).map (· + 1)

/-- `re.compile(re.escape(kw), re.IGNORECASE).search(text)` succeeds,
i.e. a case-insensitive literal substring test (`utils.py` line 108). -/
def searchCI (text kw : List Char) : Bool :=
  (findSub (lowerL text) (lowerL kw)).isSome

/- ----------------- the regex engine ----------------- -/

/-- Regex syntax, specialised to the shapes used by `PATTERN1`,
`PATTERN2` and the `strptime` format regexes: every repetition node
(`rep p lo hi greedy`, `hi = none` meaning unbounded) governs a single
character class `p`.  `openG n`/`closeG` bracket capturing groups;
`endAnchor` is `$` (lines contain no newline, so `$` = end of input). -/
inductive RE where
  | lit (c : Char)
  | cls (p : Char → Bool)
  | alt (a b : RE)
  | cat (a b : RE)
  | rep (p : Char → Bool) (lo : Nat) (hi : Option Nat) (greedy : Bool)
  | openG (n : Nat)
  | closeG
  | endAnchor

/-- Call-depth cost of one item: `alt` keeps the larger branch, `cat`
unfolds into both parts, everything else costs one call. -/
def reSize : RE → Nat
  | RE.alt a b => 1 + max (reSize a) (reSize b)
  | RE.cat a b => 1 + reSize a + reSize b
  | _ => 1

/-- Backtracking matcher, Python `re.match` semantics: earlier
alternatives have priority, greedy repetitions try longer counts first,
lazy ones shorter counts first.  Arguments: fuel, remaining items,
remaining input, current position, open-group stack `(n, start)`,
closed groups `(n, start, end)` (most recent first).  On success returns
the end position of the match and the closed groups. -/
def matchSeq : Nat → List RE → List Char → Nat → List (Nat × Nat) →
    List (Nat × Nat × Nat) → Option (Nat × List (Nat × Nat × Nat))
  | 0, _, _, _, _, _ => none
  | Nat.succ fuel, items, s, pos, stk, acc =>
    match items with
    | [] => some (pos, acc)
    | it :: rs =>
      match it with
      | RE.lit c =>
        match s with
        | [] => none
        | c2 :: s2 => if c2 = c then matchSeq fuel rs s2 (pos + 1) stk acc else none
      | RE.cls p =>
        match s with
        | [] => none
        | c2 :: s2 => if p c2 then matchSeq fuel rs s2 (pos + 1) stk acc else none
      | RE.alt a b =>
        (matchSeq fuel (a :: rs) s pos stk acc).orElse
          (fun _ => matchSeq fuel (b :: rs) s pos stk acc)
      | RE.cat a b => matchSeq fuel (a :: b :: rs) s pos stk acc
      | RE.rep p lo hi greedy =>
        let run := (s.takeWhile p).length
        let maxK := match hi with | some h => min h run | none => run
        let ks := if greedy then (List.range (maxK + 1)).reverse else List.range (maxK + 1)
        ks.findSome? (fun k =>
          if lo ≤ k then matchSeq fuel rs (s.drop k) (pos + k) stk acc else none)
      | RE.openG n => matchSeq fuel rs s pos ((n, pos) :: stk) acc
      | RE.closeG =>
        match stk with
        | [] => none
        | (n, st) :: stk2 => matchSeq fuel rs s pos stk2 ((n, st, pos) :: acc)
      | RE.endAnchor => if s.isEmpty then matchSeq fuel rs s pos stk acc else none

/-- Run a pattern (an item sequence) anchored at the start of `s`. -/
def runMatch (re : List RE) (s : List Char) : Option (Nat × List (Nat × Nat × Nat)) :=
  matchSeq ((re.map reSize).sum + 1) re s 0 [] []

/-- `m.group(n)`: extract the text of capture group `n` (most recent
capture wins, as in Python); `[]` when the group never matched. -/
def grp (g : List (Nat × Nat × Nat)) (n : Nat) (s : List Char) : List Char :=
  match g.find? (fun e => e.1 == n) with
  | some (_, st, en) => (s.drop st).take (en - st)
  | none => []

/- ----------------- the two header patterns ----------------- -/

/-- `\d{lo,hi}` (greedy). -/
def dRun (lo hi : Nat) : RE := RE.rep Char.isDigit lo (some hi) true

/-- `\s*`. -/
def wsStar : RE := RE.rep pySpace 0 none true

/-- `\s+`. -/
def wsPlus : RE := RE.rep pySpace 1 none true

/-- `.*` (greedy; `.` excludes newline). -/
def anyStarGreedy : RE := RE.rep (fun c => !(c == '\n')) 0 none true

/-- `.*?` (lazy). -/
def anyStarLazy : RE := RE.rep (fun c => !(c == '\n')) 0 none false

/-- `utils.py` line 11:
`^(\d{1,2}/\d{1,2}/\d{2,4})\s+(\d{1,2}:\d{2})(?:\s*-\s*)(.*?):\s*(.*)$`. -/
def PATTERN1 : List RE :=
  [RE.openG 1, dRun 1 2, RE.lit '/', dRun 1 2, RE.lit '/', dRun 2 4, RE.closeG,
   wsPlus,
   RE.openG 2, dRun 1 2, RE.lit ':', dRun 2 2, RE.closeG,
   wsStar, RE.lit '-', wsStar,
   RE.openG 3, anyStarLazy, RE.closeG,
   RE.lit ':', wsStar,
   RE.openG 4, anyStarGreedy, RE.closeG, RE.endAnchor]

/-- `utils.py` line 12:
`^(\d{1,2}/\d{1,2}/\d{2,4}),\s*(\d{1,2}:\d{2})\s*-\s*(.*?):\s*(.*)$`. -/
def PATTERN2 : List RE :=
  [RE.openG 1, dRun 1 2, RE.lit '/', dRun 1 2, RE.lit '/', dRun 2 4, RE.closeG,
   RE.lit ',', wsStar,
   RE.openG 2, dRun 1 2, RE.lit ':', dRun 2 2, RE.closeG,
   wsStar, RE.lit '-', wsStar,
   RE.openG 3, anyStarLazy, RE.closeG,
   RE.lit ':', wsStar,
   RE.openG 4, anyStarGreedy, RE.closeG, RE.endAnchor]

/- ----------------- strptime ----------------- -/

/-- `_strptime.TimeRE` character-class alternations are built from
these. -/
def clsIn (l : List Char) : RE := RE.cls (fun c => l.contains c)

/-- `%d`: `3[01]|[12]\d|0[1-9]|[1-9]`. -/
def reD : RE :=
  RE.alt (RE.cat (RE.lit '3') (clsIn ['0', '1']))
    (RE.alt (RE.cat (clsIn ['1', '2']) (RE.cls Char.isDigit))
      (RE.alt (RE.cat (RE.lit '0') (clsIn ['1', '2', '3', '4', '5', '6', '7', '8', '9']))
        (clsIn ['1', '2', '3', '4', '5', '6', '7', '8', '9'])))

/-- `%m`: `1[0-2]|0[1-9]|[1-9]`. -/
def reMo : RE :=
  RE.alt (RE.cat (RE.lit '1') (clsIn ['0', '1', '2']))
    (RE.alt (RE.cat (RE.lit '0') (clsIn ['1', '2', '3', '4', '5', '6', '7', '8', '9']))
      (clsIn ['1', '2', '3', '4', '5', '6', '7', '8', '9']))

/-- `%y`: `\d\d`. -/
def reY2 : RE := RE.cat (RE.cls Char.isDigit) (RE.cls Char.isDigit)

/-- `%Y`: `\d\d\d\d`. -/
def reY4 : RE :=
  RE.cat (RE.cls Char.isDigit)
    (RE.cat (RE.cls Char.isDigit) (RE.cat (RE.cls Char.isDigit) (RE.cls Char.isDigit)))

/-- `%H`: `2[0-3]|[0-1]\d|\d`. -/
def reH : RE :=
  RE.alt (RE.cat (RE.lit '2') (clsIn ['0', '1', '2', '3']))
    (RE.alt (RE.cat (clsIn ['0', '1']) (RE.cls Char.isDigit)) (RE.cls Char.isDigit))

/-- `%M`: `[0-5]\d|\d`. -/
def reMin : RE :=
  RE.alt (RE.cat (clsIn ['0', '1', '2', '3', '4', '5']) (RE.cls Char.isDigit))
    (RE.cls Char.isDigit)

/-- `%S`: `6[0-1]|[0-5]\d|\d`. -/
def reS : RE :=
  RE.alt (RE.cat (RE.lit '6') (clsIn ['0', '1']))
    (RE.alt (RE.cat (clsIn ['0', '1', '2', '3', '4', '5']) (RE.cls Char.isDigit))
      (RE.cls Char.isDigit))

/-- The compiled regex of format `"%d/%m/<year> %H:%M"` (format
whitespace becomes `\s+`); groups 1=day, 2=month, 3=year, 4=hour,
5=minute. -/
def fmtHM (reYear : RE) : List RE :=
  [RE.openG 1, reD, RE.closeG, RE.lit '/', RE.openG 2, reMo, RE.closeG, RE.lit '/',
   RE.openG 3, reYear, RE.closeG, wsPlus,
   RE.openG 4, reH, RE.closeG, RE.lit ':', RE.openG 5, reMin, RE.closeG]

/-- The compiled regex of format `"%d/%m/<year> %H:%M:%S"`; group 6 =
second. -/
def fmtHMS (reYear : RE) : List RE :=
  fmtHM reYear ++ [RE.lit ':', RE.openG 6, reS, RE.closeG]

/-- The result of a successful `datetime.strptime`. -/
structure Datetime where
  year : Nat
  month : Nat
  day : Nat
  hour : Nat
  minute : Nat
  second : Nat
deriving DecidableEq, Repr

/-- Numeric value of a digit string. -/
def digitsVal (s : List Char) : Nat :=
  s.foldl (fun a c => a * 10 + (c.toNat - 48)) 0

/-- Gregorian leap-year rule used by `datetime`. -/
def isLeap (y : Nat) : Bool :=
  (y % 4 == 0 && y % 100 != 0) || y % 400 == 0

/-- `calendar` month lengths used by `datetime` validation. -/
def daysInMonth (y m : Nat) : Nat :=
  if m = 2 then (if isLeap y then 29 else 28)
  else if m = 4 ∨ m = 6 ∨ m = 9 ∨ m = 11 then 30
  else 31

/-- `datetime.strptime(s, fmt)` for one of the four formats of the
source, as `Option`: `none` models the `ValueError` (regex mismatch,
leftover input, or invalid calendar date) that the source catches.
`twoY` selects the `%y` century mapping (≤ 68 → 2000s, else 1900s);
formats without `%S` leave group 6 absent, giving the default second
0. -/
def strptimeRun (fmt : List RE) (twoY : Bool) (s : List Char) : Option Datetime :=
  match runMatch fmt s with
  | none => none
  | some (endPos, g) =>
    if endPos ≠ s.length then none
    else
      let d := digitsVal (grp g 1 s)
      let mo := digitsVal (grp g 2 s)
      let yRaw := digitsVal (grp g 3 s)
      let y := if twoY then (if yRaw ≤ 68 then yRaw + 2000 else yRaw + 1900) else yRaw
      let h := digitsVal (grp g 4 s)
      let mi := digitsVal (grp g 5 s)
      let sec := digitsVal (grp g 6 s)
      if 1 ≤ y ∧ y ≤ 9999 ∧ d ≤ daysInMonth y mo ∧ sec ≤ 59 then
        some ⟨y, mo, d, h, mi, sec⟩
      else none

/-- The four formats of `_try_parse_date`, in source order, paired with
their `%y` flag. -/
def dateFormats : List (List RE × Bool) :=
  [(fmtHM reY4, false), (fmtHM reY2, true), (fmtHMS reY4, false), (fmtHMS reY2, true)]

/-- `_try_parse_date` (`utils.py` lines 16–27): try each format in
order, first success wins, `none` when all fail. -/
def try_parse_date (s : List Char) : Option Datetime :=
  dateFormats.findSome? (fun f => strptimeRun f.1 f.2 s)

/- ----------------- the parser ----------------- -/

/-- One parsed message (`{'id', 'date', 'author', 'text'}`). -/
structure Message where
  id : Nat
  date : Option Datetime
  author : List Char
  text : List Char
deriving DecidableEq, Repr

/-- The loop state of `parse_whatsapp_txt`: emitted messages, the open
buffer (if any), and the id counter. -/
structure ParseState where
  messages : List Message
  buffer : Option Message
  msgId : Nat
deriving DecidableEq, Repr

/-- One iteration of the `for raw in lines` loop of
`parse_whatsapp_txt` (`utils.py` lines 48–75). -/
def parseStep (st : ParseState) (raw : List Char) : ParseState :=
  let line := rstripNl raw
  if (pstrip line).isEmpty then st
  else
    let m1 := runMatch PATTERN1 line
    let m2 := runMatch PATTERN2 line
    match m1.orElse (fun _ => m2) with
    | some (_, g) =>
      let msgs := match st.buffer with
        | some b => st.messages ++ [b]
        | none => st.messages
      let id2 := st.msgId + 1
      let dateStr := grp g 1 line ++ ' ' :: grp g 2 line
      ⟨msgs, some ⟨id2, try_parse_date dateStr, pstrip (grp g 3 line), pstrip (grp g 4 line)⟩, id2⟩
    | none =>
      match st.buffer with
      | some b => ⟨st.messages, some { b with text := b.text ++ '\n' :: line }, st.msgId⟩
      | none => ⟨st.messages, some ⟨st.msgId + 1, none, [], line⟩, st.msgId + 1⟩

/-- The whole loop. -/
def parseLoop : List (List Char) → ParseState → ParseState
  | [], st => st
  | raw :: rest, st => parseLoop rest (parseStep st raw)

/-- `parse_whatsapp_txt` (`utils.py` lines 31–80), from the decoded
line list onward (reading the file / `StringIO` is the I/O boundary):
run the loop from the empty state and flush the final buffer. -/
def parse_whatsapp_txt (lines : List (List Char)) : List Message :=
  let st := parseLoop lines ⟨[], none, 0⟩
  match st.buffer with
  | some b => st.messages ++ [b]
  | none => st.messages

/- ----------------- excerpt ----------------- -/

/-- `excerpt(text, phrase, context=50)` (`utils.py` lines 84–91),
translated clause by clause: `find` on the lowered strings, then either
the fallback `text[:2*context]` with its conditional ellipsis, or the
window `text[start:end]` with `start = max(0, idx-context)` (natural
subtraction) and `end = min(len(text), idx+len(phrase)+context)`,
with ellipses when the window is cut on either side. -/
def excerpt (text phrase : List Char) (context : Nat := 50) : List Char :=
  match findSub (lowerL text) (lowerL phrase) with
  | none =>
    text.take (2 * context) ++ (if context * 2 < text.length then ("...").data else [])
  | some idx =>
    let start := idx - context
    let stop := min text.length (idx + phrase.length + context)
    (if 0 < start then ("...").data else []) ++
      ((text.drop start).take (stop - start)) ++
      (if stop < text.length then ("...").data else [])

/- ----------------- keyword search ----------------- -/

/-- One recorded match (the dict appended at `utils.py` lines 109–115
and 122–128).  Scores are rationals: the exact path records the integer
100, the fuzzy path records whatever the scorer returned. -/
structure MatchRec where
  id : Nat
  date : Option Datetime
  author : List Char
  text_excerpt : List Char
  score : ℚ
deriving DecidableEq, Repr

/-- One per-keyword report (the dict appended at `utils.py` lines
133–137; the source field `matches` is a reserved word in Lean, so it
is called `matchList` here). -/
structure Report where
  word : List Char
  count : Nat
  matchList : List MatchRec
deriving DecidableEq, Repr

/-- The per-message body of the inner loop of `analyze_keywords`
(`utils.py` lines 104–131): exact case-insensitive substring test
first (score 100); otherwise, when `fuzzy_threshold > 0`, the fuzzy
scorer is consulted on the lowered strings — `none` models its raising
(the `except` path: no match recorded), and a returned score is
recorded iff it is `≥ fuzzy_threshold * 100`. -/
def matchMsg (fscore : List Char → List Char → Option ℚ) (fuzzy_threshold : ℚ)
    (kw : List Char) (msg : Message) : Option MatchRec :=
  if searchCI msg.text kw then
    some ⟨msg.id, msg.date, msg.author, excerpt msg.text kw, 100⟩
  else if 0 < fuzzy_threshold then
    match fscore (lowerL kw) (lowerL msg.text) with
    | some score =>
      if fuzzy_threshold * 100 ≤ score then
        some ⟨msg.id, msg.date, msg.author, excerpt msg.text kw, score⟩
      else none
    | none => none
  else none

/-- `analyze_keywords(messages, keywords, fuzzy_threshold=0.0)`
(`utils.py` lines 95–139), parameterised by the external fuzzy scorer
(`rapidfuzz.fuzz.partial_ratio`, called on the lowered keyword and
text). -/
def analyze_keywords (fscore : List Char → List Char → Option ℚ)
    (messages : List Message) (keywords : List (List Char))
    (fuzzy_threshold : ℚ) : List Report :=
  keywords.map (fun kw =>
    let found := messages.filterMap (matchMsg fscore fuzzy_threshold kw)
    ⟨kw, found.length, found⟩)

/- ----------------- highlight ----------------- -/

/-- `<mark>` / `</mark>` wrapping of a matched slice
(the replacement lambda at `utils.py` line 152). -/
def wrapMark (m : List Char) : List Char :=
  ("<mark>").data ++ m ++ ("</mark>").data

/-- `kw` matches at the head of `text`, case-insensitively. -/
def atHeadCI (kw text : List Char) : Bool :=
  (lowerL kw).isPrefixOf (lowerL text)

/-- `re.sub(re.escape(kw), lambda x: "<mark>" + x.group(0) + "</mark>",
txt, flags=re.IGNORECASE)` (`utils.py` lines 150–155): scan left to
right; at each position, if the literal keyword matches
case-insensitively, wrap the matched slice (original case) and resume
after it, otherwise copy one character.  The empty keyword matches at
every position (including the very end), reproducing Python's
empty-match behaviour. -/
def subCIFuel : Nat → List Char → List Char → List Char
  | 0, _, t => t
  | Nat.succ fuel, kw, t =>
    match t with
    | [] => if kw.isEmpty then wrapMark [] else []
    | c :: t2 =>
      if kw.isEmpty then wrapMark [] ++ c :: subCIFuel fuel kw t2
      else if atHeadCI kw (c :: t2) then
        wrapMark ((c :: t2).take kw.length) ++ subCIFuel fuel kw ((c :: t2).drop kw.length)
      else c :: subCIFuel fuel kw t2

/-- The scan above with its exact fuel: every step removes at least one
character from the remaining text (a matched non-empty keyword removes
`kw.length ≥ 1`), so `t.length + 1` calls always complete the scan. -/
def subCI (kw t : List Char) : List Char := subCIFuel (t.length + 1) kw t

/-- `txt.replace("\n", "<br>")` (`utils.py` line 159). -/
def replaceNl (t : List Char) : List Char :=
  t.foldr (fun c acc => if c = '\n' then ("<br>").data ++ acc else c :: acc) []

/-- One highlighted line (the dict appended at `utils.py` lines
161–166). -/
structure HLine where
  id : Nat
  date : Option Datetime
  author : List Char
  html : List Char
deriving DecidableEq, Repr

/-- `highlight_lines(messages, keywords)` (`utils.py` lines 143–168),
parameterised by the per-keyword substitution as an `Option`: `none`
models the substitution raising (the `except: continue`, which leaves
`txt` unchanged and moves to the next keyword). -/
def highlight_linesG (sub : List Char → List Char → Option (List Char))
    (messages : List Message) (keywords : List (List Char)) : List HLine :=
  messages.map (fun msg =>
    let txt := keywords.foldl (fun t kw =>
      match sub kw t with
      | some t2 => t2
      | none => t) msg.text
    ⟨msg.id, msg.date, msg.author, replaceNl txt⟩)

/-- The concrete `highlight_lines`: the substitution is `subCI`, which
is total (with an escaped literal pattern `re.sub` does not raise). -/
def highlight_lines (messages : List Message) (keywords : List (List Char)) : List HLine :=
  highlight_linesG (fun kw t => some (subCI kw t)) messages keywords

/- ----------------- id invariant (C2) ----------------- -/

/-- Loop invariant of `parse_whatsapp_txt`: emitted ids are `1..n` and
the open buffer (when present) carries id `n + 1`, which is also the
value of the id counter. -/
def stInv (st : ParseState) : Prop :=
  st.messages.map (fun m => m.id) = List.range' 1 st.messages.length ∧
  ((st.buffer = none ∧ st.msgId = st.messages.length) ∨
   (∃ b, st.buffer = some b ∧ b.id = st.messages.length + 1 ∧
     st.msgId = st.messages.length + 1))

lemma stInv_parseStep (st : ParseState) (raw : List Char) (h : stInv st) :
    stInv (parseStep st raw) := by
  obtain ⟨hids, hbuf⟩ := h
  unfold parseStep
  by_cases hblank : (pstrip (rstripNl raw)).isEmpty
  · simpa [hblank] using ⟨hids, hbuf⟩
  · simp only [hblank, Bool.false_eq_true, if_false]
    rcases hm : (runMatch PATTERN1 (rstripNl raw)).orElse
        (fun _ => runMatch PATTERN2 (rstripNl raw)) with _ | ⟨pos, g⟩
    · rcases hbuf with ⟨hb, hn⟩ | ⟨b, hb, hbid, hn⟩
      · simp only [hb]
        exact ⟨hids, Or.inr ⟨_, rfl, by simp [hn], by simp [hn]⟩⟩
      · simp only [hb]
        exact ⟨hids, Or.inr ⟨_, rfl, by simpa using hbid, hn⟩⟩
    · rcases hbuf with ⟨hb, hn⟩ | ⟨b, hb, hbid, hn⟩
      · simp only [hb]
        exact ⟨hids, Or.inr ⟨_, rfl, by simp [hn], by simp [hn]⟩⟩
      · simp only [hb]
        refine ⟨?_, Or.inr ⟨_, rfl, by simp [hn], by simp [hn]⟩⟩
        rw [show (st.messages ++ [b]).length = st.messages.length + 1 by simp,
          List.range'_concat]
        simp [hids, hbid, Nat.add_comm]

lemma stInv_parseLoop (lines : List (List Char)) (st : ParseState) (h : stInv st) :
    stInv (parseLoop lines st) := by
  induction lines generalizing st with
  | nil => simpa [parseLoop] using h
  | cons l rest ih => exact ih _ (stInv_parseStep st l h)

/-- C2: For every input sequence of lines, the ids of the messages
returned by the parser are exactly `1..N` in output order — a gapless,
strictly increasing, 1-based sequence — regardless of how many blank
lines or continuation lines the input contains. -/
theorem claim_C2 (lines : List (List Char)) :
    (parse_whatsapp_txt lines).map (fun m => m.id) =
      List.range' 1 (parse_whatsapp_txt lines).length := by
  unfold parse_whatsapp_txt
  have h := stInv_parseLoop lines ⟨[], none, 0⟩ (by constructor <;> simp [stInv])
  obtain ⟨hids, hbuf⟩ := h
  rcases hbuf with ⟨hb, _⟩ | ⟨b, hb, hbid, _⟩
  · simpa [hb] using hids
  · simp only [hb]
    rw [show ((parseLoop lines ⟨[], none, 0⟩).messages ++ [b]).length =
        (parseLoop lines ⟨[], none, 0⟩).messages.length + 1 by simp,
      List.range'_concat]
    simp [hids, hbid, Nat.add_comm]

/- ----------------- C3: continuation lines ----------------- -/

/-- C3: For every non-blank line matching neither header pattern while
a message buffer is open, the parser appends that line to the open
buffer's text with a newline separator, preserving the continuation
line's whitespace; blank lines are skipped entirely.  In particular,
parsing the line `04/12/2023 11:12 - Ana: oi` followed by the line
`tudo bem?` yields exactly one message with author `Ana` and text
`oi\ntudo bem?`. -/
theorem claim_C3 :
    (∀ (st : ParseState) (raw : List Char) (b : Message),
        st.buffer = some b →
        (pstrip (rstripNl raw)).isEmpty = false →
        runMatch PATTERN1 (rstripNl raw) = none →
        runMatch PATTERN2 (rstripNl raw) = none →
        parseStep st raw =
          ⟨st.messages, some { b with text := b.text ++ '\n' :: rstripNl raw }, st.msgId⟩) ∧
    (∀ (st : ParseState) (raw : List Char),
        (pstrip (rstripNl raw)).isEmpty = true → parseStep st raw = st) ∧
    parse_whatsapp_txt [("04/12/2023 11:12 - Ana: oi").data, ("tudo bem?").data] =
      [⟨1, some ⟨2023, 12, 4, 11, 12, 0⟩, ("Ana").data, ("oi\ntudo bem?").data⟩] := by
  refine ⟨?_, ?_, by decide⟩
  · intro st raw b hb hblank hm1 hm2
    unfold parseStep
    simp [hblank, hm1, hm2, hb, Option.orElse]
  · intro st raw hblank
    unfold parseStep
    simp [hblank]

theorem claim_C3_witness :
    parseStep ⟨[], some ⟨1, none, ("Ana").data, ("oi").data⟩, 1⟩ (("tudo bem?").data) =
      ⟨[], some ⟨1, none, ("Ana").data, ("oi\ntudo bem?").data⟩, 1⟩ := by
  have h := claim_C3.1 ⟨[], some ⟨1, none, ("Ana").data, ("oi").data⟩, 1⟩
    (("tudo bem?").data) ⟨1, none, ("Ana").data, ("oi").data⟩ rfl (by decide) (by decide)
    (by decide)
  exact h.trans (by decide)

/- ----------------- C4: timestamp format order ----------------- -/

/-- C4: For every header line captured by a header pattern, timestamp
parsing tries, in fixed order, the four formats
`%d/%m/%Y %H:%M`, `%d/%m/%y %H:%M`, `%d/%m/%Y %H:%M:%S`,
`%d/%m/%y %H:%M:%S`; the first format that parses wins, and if none
parse the message is still emitted with `timestamp = None` and correct
author and text (witnessed on the header-shaped line
`31/02/2023 11:12 - Ana: oi`, whose calendar date is invalid). -/
theorem claim_C4 :
    (∀ (s : List Char) (d : Datetime),
        strptimeRun (fmtHM reY4) false s = some d → try_parse_date s = some d) ∧
    (∀ (s : List Char) (d : Datetime),
        strptimeRun (fmtHM reY4) false s = none →
        strptimeRun (fmtHM reY2) true s = some d → try_parse_date s = some d) ∧
    (∀ (s : List Char) (d : Datetime),
        strptimeRun (fmtHM reY4) false s = none →
        strptimeRun (fmtHM reY2) true s = none →
        strptimeRun (fmtHMS reY4) false s = some d → try_parse_date s = some d) ∧
    (∀ (s : List Char) (d : Datetime),
        strptimeRun (fmtHM reY4) false s = none →
        strptimeRun (fmtHM reY2) true s = none →
        strptimeRun (fmtHMS reY4) false s = none →
        strptimeRun (fmtHMS reY2) true s = some d → try_parse_date s = some d) ∧
    (∀ s : List Char,
        strptimeRun (fmtHM reY4) false s = none →
        strptimeRun (fmtHM reY2) true s = none →
        strptimeRun (fmtHMS reY4) false s = none →
        strptimeRun (fmtHMS reY2) true s = none → try_parse_date s = none) ∧
    parse_whatsapp_txt [("31/02/2023 11:12 - Ana: oi").data] =
      [⟨1, none, ("Ana").data, ("oi").data⟩] ∧
    try_parse_date (("04/12/23 11:12").data) = some ⟨2023, 12, 4, 11, 12, 0⟩ := by
  refine ⟨?_, ?_, ?_, ?_, ?_, by decide, by decide⟩
  · intro s d h1
    simp [try_parse_date, dateFormats, List.findSome?_cons, h1]
  · intro s d h1 h2
    simp [try_parse_date, dateFormats, List.findSome?_cons, h1, h2]
  · intro s d h1 h2 h3
    simp [try_parse_date, dateFormats, List.findSome?_cons, h1, h2, h3]
  · intro s d h1 h2 h3 h4
    simp [try_parse_date, dateFormats, List.findSome?_cons, h1, h2, h3, h4]
  · intro s h1 h2 h3 h4
    simp [try_parse_date, dateFormats, List.findSome?_cons, h1, h2, h3, h4]

theorem claim_C4_witness :
    try_parse_date (("04/12/2023 11:12").data) = some ⟨2023, 12, 4, 11, 12, 0⟩ :=
  claim_C4.1 (("04/12/2023 11:12").data) ⟨2023, 12, 4, 11, 12, 0⟩ (by decide)

/- ----------------- search-engine lemmas ----------------- -/

lemma nil_isPrefixOf (l : List Char) : ([] : List Char).isPrefixOf l = true := by
  cases l <;> rfl

lemma findSub_nil (hay : List Char) : findSub hay ([] : List Char) = some 0 := by
  unfold findSub
  rw [nil_isPrefixOf]
  simp

lemma searchCI_nil (t : List Char) : searchCI t [] = true := by
  simp [searchCI, lowerL, findSub_nil]

lemma matchMsg_id (fscore : List Char → List Char → Option ℚ) (θ : ℚ)
    (kw : List Char) (m : Message) (r : MatchRec)
    (h : matchMsg fscore θ kw m = some r) : r.id = m.id := by
  by_cases h1 : searchCI m.text kw
  · simp only [matchMsg, h1, if_true] at h
    injection h with h2
    rw [← h2]
  · by_cases h2 : 0 < θ
    · rcases hf : fscore (lowerL kw) (lowerL m.text) with _ | s
      · simp [matchMsg, h1, h2, hf] at h
      · by_cases h3 : θ * 100 ≤ s
        · simp only [matchMsg, h1, h2, hf, h3, if_true, if_false, Bool.false_eq_true] at h
          injection h with h2
          rw [← h2]
        · simp [matchMsg, h1, h2, hf, h3] at h
    · simp [matchMsg, h1, h2] at h

lemma matchIds_sublist (fscore : List Char → List Char → Option ℚ) (θ : ℚ)
    (kw : List Char) (msgs : List Message) :
    ((msgs.filterMap (matchMsg fscore θ kw)).map (fun r => r.id)).Sublist
      (msgs.map (fun m => m.id)) := by
  induction msgs with
  | nil => simp
  | cons m t ih =>
    rw [List.filterMap_cons]
    cases hm : matchMsg fscore θ kw m with
    | none => exact ih.cons _
    | some r =>
      rw [List.map_cons, List.map_cons, matchMsg_id fscore θ kw m r hm]
      exact ih.cons₂ _

/- ----------------- C1: exact first, fuzzy fallback ----------------- -/

/-- C1: For every message and every keyword, search first runs the
exact case-insensitive literal substring test; if it succeeds a match
with score 100 is recorded and fuzzy matching is not attempted (the
result does not depend on the scorer at all); if it fails and
`fuzzy_threshold > 0`, a fuzzy match is recorded if and only if the
scorer's value on the lowercased keyword and text is
`≥ fuzzy_threshold * 100`, with that score recorded; if
`fuzzy_threshold = 0` and the exact test fails, no match is recorded. -/
theorem claim_C1 :
    (∀ (fscore : List Char → List Char → Option ℚ) (θ : ℚ) (kw : List Char) (m : Message),
        searchCI m.text kw = true →
        matchMsg fscore θ kw m =
          some ⟨m.id, m.date, m.author, excerpt m.text kw, 100⟩) ∧
    (∀ (fscore : List Char → List Char → Option ℚ) (θ : ℚ) (kw : List Char) (m : Message)
        (s : ℚ),
        searchCI m.text kw = false → 0 < θ →
        fscore (lowerL kw) (lowerL m.text) = some s →
        matchMsg fscore θ kw m =
          if θ * 100 ≤ s then some ⟨m.id, m.date, m.author, excerpt m.text kw, s⟩
          else none) ∧
    (∀ (fscore : List Char → List Char → Option ℚ) (kw : List Char) (m : Message),
        searchCI m.text kw = false → matchMsg fscore 0 kw m = none) := by
  refine ⟨?_, ?_, ?_⟩
  · intro fscore θ kw m h
    simp [matchMsg, h]
  · intro fscore θ kw m s h hθ hf
    simp [matchMsg, h, hθ, hf]
  · intro fscore kw m h
    simp [matchMsg, h]

theorem claim_C1_witness :
    matchMsg (fun _ _ => none) 0 (("oi").data) ⟨1, none, [], ("oi").data⟩ =
      some ⟨1, none, [], ("oi").data, 100⟩ :=
  (claim_C1.1 (fun _ _ => none) 0 (("oi").data) ⟨1, none, [], ("oi").data⟩
    (by decide)).trans (by decide)

/- ----------------- C10: the empty keyword ----------------- -/

/-- C10: For the empty-string keyword, the exact substring test
succeeds on every message (including messages whose text is empty), so
search records an exact match with score 100 for every message, the
report's count equals the total number of messages, and the fuzzy path
is never taken for that keyword (the scorer and threshold are
arbitrary). -/
theorem claim_C10 (fscore : List Char → List Char → Option ℚ) (θ : ℚ)
    (msgs : List Message) :
    analyze_keywords fscore msgs [([] : List Char)] θ =
      [⟨[], msgs.length,
        msgs.map (fun m => ⟨m.id, m.date, m.author, excerpt m.text [], 100⟩)⟩] := by
  have hmatch : ∀ m : Message, matchMsg fscore θ [] m =
      some ⟨m.id, m.date, m.author, excerpt m.text [], 100⟩ := by
    intro m
    simp [matchMsg, searchCI_nil]
  have hfm : ∀ ms : List Message, ms.filterMap (matchMsg fscore θ []) =
      ms.map (fun m => ⟨m.id, m.date, m.author, excerpt m.text [], 100⟩) := by
    intro ms
    induction ms with
    | nil => rfl
    | cons m t ih => simp [List.filterMap_cons, hmatch m, ih]
  simp [analyze_keywords, hfm]

/- ----------------- C5: report shape and order ----------------- -/

/-- C5: For every messages/keywords/threshold input, the search result
contains one report per input keyword in keyword input order — the
sequence of report words is exactly the input keyword sequence, so the
i-th report belongs to the i-th keyword (duplicate keywords each
producing their own independent, identical report) — each report's
match list is in message order (its ids form a sublist of the
message-id sequence), and each report's count equals the number of its
recorded matches. -/
theorem claim_C5 :
    (∀ (fscore : List Char → List Char → Option ℚ) (θ : ℚ) (msgs : List Message)
        (kws : List (List Char)),
        (analyze_keywords fscore msgs kws θ).length = kws.length) ∧
    (∀ (fscore : List Char → List Char → Option ℚ) (θ : ℚ) (msgs : List Message)
        (kws : List (List Char)),
        (analyze_keywords fscore msgs kws θ).map (fun r => r.word) = kws) ∧
    (∀ (fscore : List Char → List Char → Option ℚ) (θ : ℚ) (msgs : List Message)
        (kws : List (List Char)) (i j : Nat),
        kws[i]? = kws[j]? →
        (analyze_keywords fscore msgs kws θ)[i]? =
          (analyze_keywords fscore msgs kws θ)[j]?) ∧
    (∀ (fscore : List Char → List Char → Option ℚ) (θ : ℚ) (msgs : List Message)
        (kws : List (List Char)) (r : Report),
        r ∈ analyze_keywords fscore msgs kws θ → r.count = r.matchList.length) ∧
    (∀ (fscore : List Char → List Char → Option ℚ) (θ : ℚ) (msgs : List Message)
        (kws : List (List Char)) (r : Report),
        r ∈ analyze_keywords fscore msgs kws θ →
        (r.matchList.map (fun rec => rec.id)).Sublist (msgs.map (fun m => m.id))) := by
  refine ⟨?_, ?_, ?_, ?_, ?_⟩
  · intro fscore θ msgs kws
    simp [analyze_keywords]
  · intro fscore θ msgs kws
    unfold analyze_keywords
    rw [List.map_map]
    exact List.map_id _
  · intro fscore θ msgs kws i j hij
    unfold analyze_keywords
    rw [List.getElem?_map, List.getElem?_map, hij]
  · intro fscore θ msgs kws r hr
    unfold analyze_keywords at hr
    rw [List.mem_map] at hr
    obtain ⟨kw, _, rfl⟩ := hr
    rfl
  · intro fscore θ msgs kws r hr
    unfold analyze_keywords at hr
    rw [List.mem_map] at hr
    obtain ⟨kw, _, rfl⟩ := hr
    exact matchIds_sublist fscore θ kw msgs

theorem claim_C5_witness :
    (analyze_keywords (fun _ _ => none) [⟨1, none, [], ("oi").data⟩]
        [("a").data, ("a").data] 0)[0]? =
      (analyze_keywords (fun _ _ => none) [⟨1, none, [], ("oi").data⟩]
        [("a").data, ("a").data] 0)[1]? :=
  claim_C5.2.2.1 (fun _ _ => none) 0 [⟨1, none, [], ("oi").data⟩]
    [("a").data, ("a").data] 0 1 (by decide)

/- ----------------- C8: failure isolation ----------------- -/

/-- C8: A failure while scoring one message/keyword pair in the fuzzy
path is caught and treated as no match for that message, never
aborting the computation of the rest of that keyword's matches;
likewise, a keyword whose substitution always fails in highlight is
skipped for that keyword only and processing continues with the next
keyword. -/
theorem claim_C8 :
    (∀ (fscore : List Char → List Char → Option ℚ) (θ : ℚ) (kw : List Char)
        (ms1 : List Message) (m : Message) (ms2 : List Message),
        searchCI m.text kw = false →
        fscore (lowerL kw) (lowerL m.text) = none →
        (ms1 ++ m :: ms2).filterMap (matchMsg fscore θ kw) =
          ms1.filterMap (matchMsg fscore θ kw) ++ ms2.filterMap (matchMsg fscore θ kw)) ∧
    (∀ (sub : List Char → List Char → Option (List Char)) (msgs : List Message)
        (ks1 : List (List Char)) (k : List Char) (ks2 : List (List Char)),
        (∀ t, sub k t = none) →
        highlight_linesG sub msgs (ks1 ++ k :: ks2) =
          highlight_linesG sub msgs (ks1 ++ ks2)) := by
  constructor
  · intro fscore θ kw ms1 m ms2 hs hf
    have hnone : matchMsg fscore θ kw m = none := by
      simp [matchMsg, hs, hf]
    rw [List.filterMap_append, List.filterMap_cons, hnone]
  · intro sub msgs ks1 k ks2 hsub
    unfold highlight_linesG
    simp [List.foldl_append, List.foldl_cons, hsub]

theorem claim_C8_witness :
    ([⟨1, none, [], ("b").data⟩, (⟨2, none, [], ("a").data⟩ : Message)]).filterMap
        (matchMsg (fun _ _ => none) 1 (("a").data)) =
      ([] : List Message).filterMap (matchMsg (fun _ _ => none) 1 (("a").data)) ++
        ([(⟨2, none, [], ("a").data⟩ : Message)]).filterMap
          (matchMsg (fun _ _ => none) 1 (("a").data)) :=
  claim_C8.1 (fun _ _ => none) 1 (("a").data) [] ⟨1, none, [], ("b").data⟩
    [⟨2, none, [], ("a").data⟩] (by decide) rfl

/- ----------------- C6: excerpt windows ----------------- -/

/-- The window described by the claim, with Python's integer arithmetic
made explicit: the substring of `text` from `max(0, idx-context)` to
`min(len(text), idx+len(phrase)+context)`, an ellipsis prefix iff the
window does not start at 0 and an ellipsis suffix iff it does not end
at `len(text)`; fallback: the first `2*context` characters with a
trailing ellipsis iff `text` is longer than `2*context`. -/
def excerptSpec (text phrase : List Char) (context : Nat) : List Char :=
  match findSub (lowerL text) (lowerL phrase) with
  | some idx =>
    let lo : Int := max 0 ((idx : Int) - (context : Int))
    let hi : Int := min ((text.length : Int)) ((idx : Int) + (phrase.length : Int) + (context : Int))
    (if lo ≠ 0 then ("...").data else []) ++
      ((text.drop lo.toNat).take (hi - lo).toNat) ++
      (if hi ≠ (text.length : Int) then ("...").data else [])
  | none =>
    text.take (2 * context) ++ (if 2 * context < text.length then ("...").data else [])

/-- C6: For every text, phrase and context the `excerpt` of the source
computes exactly the window of the claim (first case-insensitive
occurrence, `max`/`min`-clamped bounds, ellipses exactly at truncated
ends; fallback of the first `2*context` characters with trailing
ellipsis iff the text is longer); illustrated on
`excerpt "hello world foo" "world" 3 = "...lo world fo..."`. -/
theorem claim_C6 :
    (∀ (text phrase : List Char) (context : Nat),
        excerpt text phrase context = excerptSpec text phrase context) ∧
    excerpt (("hello world foo").data) (("world").data) 3 = ("...lo world fo...").data := by
  refine ⟨?_, by decide⟩
  intro text phrase context
  unfold excerpt excerptSpec
  cases hf : findSub (lowerL text) (lowerL phrase) with
  | none => rw [Nat.mul_comm]
  | some idx =>
    have e1 : (max 0 ((idx : Int) - (context : Int))).toNat = idx - context := by omega
    have e2 : ((min ((text.length : Int))
        ((idx : Int) + (phrase.length : Int) + (context : Int))) -
          max 0 ((idx : Int) - (context : Int))).toNat =
        min text.length (idx + phrase.length + context) - (idx - context) := by omega
    have e3 : (max 0 ((idx : Int) - (context : Int)) ≠ 0) ↔ (0 < idx - context) := by omega
    have e4 : (min ((text.length : Int))
        ((idx : Int) + (phrase.length : Int) + (context : Int)) ≠ (text.length : Int)) ↔
        (min text.length (idx + phrase.length + context) < text.length) := by omega
    simp only [e1, e2, e3, e4]

/- ----------------- C7: highlight substitution ----------------- -/

/-- C7: highlight applies the keywords sequentially in input order
(processing `k :: ks` is processing `ks` on messages whose text has
already been substituted for `k`, so later keywords may wrap text
already wrapped by earlier ones), wraps every case-insensitive literal
occurrence of each keyword, and after all substitutions replaces every
newline with a line-break marker; with an empty keyword list the
output is the transcript with only the line-break substitution.  The
third conjunct shows both occurrences (different case) wrapped and the
newline converted; the fourth shows a later keyword (`mark`) wrapping
the markers inserted for an earlier one (`b`). -/
theorem claim_C7 :
    (∀ (msgs : List Message) (k : List Char) (ks : List (List Char)),
        highlight_lines msgs (k :: ks) =
          highlight_lines (msgs.map (fun m => { m with text := subCI k m.text })) ks) ∧
    (∀ msgs : List Message,
        highlight_lines msgs [] =
          msgs.map (fun m => ⟨m.id, m.date, m.author, replaceNl m.text⟩)) ∧
    (highlight_lines [⟨1, none, [], ("b\nB").data⟩] [("b").data] =
      [⟨1, none, [], ("<mark>b</mark><br><mark>B</mark>").data⟩]) ∧
    (highlight_lines [⟨1, none, [], ("b").data⟩] [("b").data, ("mark").data] =
      [⟨1, none, [], ("<<mark>mark</mark>>b</<mark>mark</mark>>").data⟩]) := by
  refine ⟨?_, ?_, by decide, by decide⟩
  · intro msgs k ks
    unfold highlight_lines highlight_linesG
    simp [List.map_map, Function.comp]
  · intro msgs
    unfold highlight_lines highlight_linesG
    simp

/- ----------------- C9: re-highlighting ----------------- -/

/-- `highlight_lines` applied a second time, feeding each highlighted
line's html back in as the message text (marker placement of the
twice-highlighted transcript). -/
def rehighlight (msgs : List Message) (kws : List (List Char)) : List HLine :=
  highlight_lines
    ((highlight_lines msgs kws).map (fun hl => ⟨hl.id, hl.date, hl.author, hl.html⟩)) kws

/-- The text contains no instance of either marker substring. -/
def noMarkIn (t : List Char) : Bool :=
  !(findSub t (("<mark>").data)).isSome && !(findSub t (("</mark>").data)).isSome

/-- The keyword's text recurs (case-insensitively) inside one of the
marker strings. -/
def kwInMarks (kw : List Char) : Bool :=
  searchCI (("<mark>").data) kw || searchCI (("</mark>").data) kw

lemma atHeadCI_searchCI (kw x : List Char) (h : atHeadCI kw x = true) :
    searchCI x kw = true := by
  unfold atHeadCI at h
  unfold searchCI findSub
  rw [h]
  rfl

lemma searchCI_tail (kw : List Char) (c : Char) (t : List Char)
    (h : searchCI (c :: t) kw = false) : searchCI t kw = false := by
  unfold searchCI at h ⊢
  rw [findSub.eq_def] at h
  simp only [lowerL, List.map_cons] at h
  by_cases hp : (List.map Char.toLower kw).isPrefixOf
      (Char.toLower c :: List.map Char.toLower t)
  · rw [if_pos hp] at h
    simp at h
  · rw [if_neg hp] at h
    simpa [lowerL] using h

lemma searchCI_ne_nil (kw t : List Char) (h : searchCI t kw = false) : kw.isEmpty = false := by
  cases hk : kw with
  | nil => rw [hk] at h; rw [searchCI_nil] at h; cases h
  | cons a l => rfl

lemma subCIFuel_of_not_found (fuel : Nat) : ∀ (t kw : List Char),
    t.length < fuel → searchCI t kw = false → subCIFuel fuel kw t = t := by
  induction fuel with
  | zero => intro t kw hlen _; exact absurd hlen (Nat.not_lt_zero _)
  | succ f ih =>
    intro t kw hlen h
    cases t with
    | nil => simp [subCIFuel, searchCI_ne_nil kw [] h]
    | cons c t2 =>
      have hk := searchCI_ne_nil kw (c :: t2) h
      have hhead : atHeadCI kw (c :: t2) = false := by
        cases hh : atHeadCI kw (c :: t2) with
        | false => rfl
        | true => rw [atHeadCI_searchCI kw (c :: t2) hh] at h; cases h
      have hlen2 : t2.length < f := by
        simp only [List.length_cons] at hlen
        omega
      simp [subCIFuel, hk, hhead, ih t2 kw hlen2 (searchCI_tail kw c t2 h)]

lemma subCI_of_not_found (kw t : List Char) (h : searchCI t kw = false) :
    subCI kw t = t :=
  subCIFuel_of_not_found (t.length + 1) t kw (Nat.lt_succ_self _) h

lemma foldl_subCI_id (kws : List (List Char)) (t : List Char)
    (h : ∀ kw ∈ kws, searchCI t kw = false) :
    kws.foldl (fun t2 kw => subCI kw t2) t = t := by
  induction kws with
  | nil => rfl
  | cons k ks ih =>
    rw [List.foldl_cons, subCI_of_not_found k t (h k (by simp))]
    exact ih (fun kw hkw => h kw (by simp [hkw]))

lemma nl_not_mem_replaceNl (t : List Char) : '\n' ∉ replaceNl t := by
  induction t with
  | nil => simp [replaceNl]
  | cons c t ih =>
    by_cases hc : c = '\n'
    · simp only [replaceNl, List.foldr_cons, hc, if_pos rfl]
      intro hmem
      rcases List.mem_append.mp hmem with hm | hm
      · simp at hm
      · exact ih hm
    · simp only [replaceNl, List.foldr_cons, if_neg hc]
      intro hmem
      rcases List.mem_cons.mp hmem with hm | hm
      · exact hc hm.symm
      · exact ih hm

lemma replaceNl_of_no_nl (t : List Char) (h : '\n' ∉ t) : replaceNl t = t := by
  induction t with
  | nil => rfl
  | cons c t ih =>
    have hc : ¬c = '\n' := fun hcc => h (by simp [hcc])
    simp only [replaceNl, List.foldr_cons, if_neg hc]
    rw [show (List.foldr (fun c2 acc => if c2 = '\n' then ("<br>").data ++ acc else c2 :: acc)
      [] t) = replaceNl t from rfl, ih (fun hm => h (by simp [hm]))]

lemma mem_highlight_no_nl (msgs : List Message) (kws : List (List Char)) (hl : HLine)
    (hmem : hl ∈ highlight_lines msgs kws) : '\n' ∉ hl.html := by
  unfold highlight_lines highlight_linesG at hmem
  rw [List.mem_map] at hmem
  obtain ⟨m, _, rfl⟩ := hmem
  exact nl_not_mem_replaceNl _

/-- C9 counterexample: with the single message text `xy` (which
contains neither marker substring) and the single keyword `xy` (which
does not recur inside either marker string), re-highlighting the
highlighted transcript is NOT idempotent: the already-wrapped
occurrence is wrapped a second time. -/
theorem claim_C9_counterexample :
    noMarkIn (("xy").data) = true ∧
    kwInMarks (("xy").data) = false ∧
    rehighlight [⟨1, none, [], ("xy").data⟩] [("xy").data] ≠
      highlight_lines [⟨1, none, [], ("xy").data⟩] [("xy").data] := by
  refine ⟨by decide, by decide, by decide⟩

lemma highlight_of_map_toMsg (H : List HLine) (kws : List (List Char)) :
    highlight_lines (H.map (fun hl => ⟨hl.id, hl.date, hl.author, hl.html⟩)) kws =
      H.map (fun hl => ⟨hl.id, hl.date, hl.author,
        replaceNl (kws.foldl (fun t kw => subCI kw t) hl.html)⟩) := by
  unfold highlight_lines highlight_linesG
  simp [List.map_map, Function.comp]

/-- C9 (amended): highlight applied twice with the same keyword list is
idempotent on marker placement provided no keyword occurs
(case-insensitively) in the once-highlighted html of any message; the
original side conditions (text free of the marker substring, keywords
not recurring inside the marker strings) do not suffice, because the
wrapped occurrence of a keyword still matches inside the once-
highlighted output and is wrapped again. -/
theorem claim_C9 (msgs : List Message) (kws : List (List Char))
    (h : ∀ hl ∈ highlight_lines msgs kws, ∀ kw ∈ kws, searchCI hl.html kw = false) :
    rehighlight msgs kws = highlight_lines msgs kws := by
  rw [rehighlight, highlight_of_map_toMsg]
  have hcongr : ∀ hl ∈ highlight_lines msgs kws,
      (⟨hl.id, hl.date, hl.author,
        replaceNl (kws.foldl (fun t kw => subCI kw t) hl.html)⟩ : HLine) = hl := by
    intro hl hmem
    rw [foldl_subCI_id kws hl.html (fun kw hkw => h hl hmem kw hkw),
      replaceNl_of_no_nl hl.html (mem_highlight_no_nl msgs kws hl hmem)]
  rw [List.map_congr_left hcongr]
  exact List.map_id _

theorem claim_C9_witness :
    rehighlight [⟨1, none, [], ("zz").data⟩] [("ab").data] =
      highlight_lines [⟨1, none, [], ("zz").data⟩] [("ab").data] :=
  claim_C9 [⟨1, none, [], ("zz").data⟩] [("ab").data] (by decide)
